import Mathlib

/-!
Verification of the UFCNN graph-construction module (`ufcnn/ufcnn.py`).

The module builds an "Undecimated Fully Convolutional Network" out of
causal dilated convolutions.  We shallowly embed the operations it uses:
activation tensors are total functions from (batch, height, time, channel)
indices to rationals, with the relevant shape data carried separately; the
TensorFlow primitives `tf.pad`, `tf.nn.conv2d`, `tf.nn.atrous_conv2d`,
`tf.nn.relu`, `tf.concat`, `tf.expand_dims`, `tf.squeeze` become explicit
index arithmetic, and the random weight initialisation becomes universally
quantified weight parameters.  Softmax and the loss utilities operate on
real-valued 3-D tensors.
-/

open Finset

/-- An activation tensor: 4-D, indexed (batch, height, time, channel). -/
def Act : Type := ℕ → ℕ → ℕ → ℕ → ℚ

/-- A filter weight tensor: 4-D, indexed (height tap, time tap, in-channel,
out-channel). -/
def Filt : Type := ℕ → ℕ → ℕ → ℕ → ℚ

/-- A 3-D input/output tensor: indexed (batch, time, channel). -/
def Inp : Type := ℕ → ℕ → ℕ → ℚ

/-- Embedding of `tf.pad(x, [[0,0],[0,0],[p,0],[0,0]])`: left-pad the time
axis by `p` zeros, no right padding. -/
def padTime (x : Act) (p : ℕ) : Act :=
  fun b h t c => if t < p then 0 else x b h (t - p) c

/-- Embedding of `tf.nn.conv2d(x, w, [1,1,1,1], padding='VALID')`
(cross-correlation, stride one) for a filter of height `fh`, width `fw`,
`cin` in-channels. -/
def conv2d (x : Act) (w : Filt) (fh fw cin : ℕ) : Act :=
  fun b h t o =>
    ∑ r ∈ range fh, ∑ k ∈ range fw, ∑ i ∈ range cin,
      x b (h + r) (t + k) i * w r k i o

/-- Embedding of `tf.nn.atrous_conv2d(x, w, d, padding='VALID')`:
convolution with the filter taps spread `d` apart in both spatial
dimensions. -/
def atrousConv2d (x : Act) (w : Filt) (fh fw cin d : ℕ) : Act :=
  fun b h t o =>
    ∑ r ∈ range fh, ∑ k ∈ range fw, ∑ i ∈ range cin,
      x b (h + d * r) (t + d * k) i * w r k i o

/-- Broadcasting bias addition `x + b` (the bias indexed by channel). -/
def addBias (x : Act) (bias : ℕ → ℚ) : Act :=
  fun b h t o => x b h t o + bias o

/-- Embedding of `conv` from the source: left-pad the time axis by
`dilation * (filter_length - 1)` zeros, apply `conv2d` when `dilation == 1`
and `atrous_conv2d` otherwise, then add the bias.  The filter's own shape
(height `fh`, width `fw`, `cin` in-channels) is passed explicitly since our
filters are bare functions. -/
def conv (x : Act) (w : Filt) (bias : ℕ → ℚ) (fh fw cin : ℕ)
    (filter_length dilation : ℕ) : Act :=
  let xp := padTime x (dilation * (filter_length - 1))
  if dilation = 1 then
    addBias (conv2d xp w fh fw cin) bias
  else
    addBias (atrousConv2d xp w fh fw cin dilation) bias

/-- Embedding of `tf.nn.relu`, elementwise on a 4-D tensor. -/
def relu4 (x : Act) : Act :=
  fun b h t c => max (x b h t c) 0

/-- Embedding of `tf.concat(3, [x, y])` where `x` carries `cx` channels: concatenation
along the channel axis. -/
def concatCh (x y : Act) (cx : ℕ) : Act :=
  fun b h t c => if c < cx then x b h t c else y b h t (c - cx)

/-- Embedding of `tf.expand_dims(x_in, 1)`: insert the singleton height axis.  Within
shape the height index is always 0; filters of height 1 never read other
height positions. -/
def expandDims1 (x : Inp) : Act :=
  fun b _ t c => x b t c

/-- The `construct_ufcnn` hyper-parameters (the random seed only feeds the
weight initialiser, which we replace by explicit weight arguments). -/
structure UFCNN where
  n_inputs : ℕ
  n_outputs : ℕ
  n_levels : ℕ
  n_filters : ℕ
  filter_length : ℕ

/-- One choice of all convolution weights and biases of the network,
indexed by level, replacing the `init_normal` random draws. -/
structure UWeights where
  Hw : ℕ → Filt
  Hb : ℕ → ℕ → ℚ
  Gw : ℕ → Filt
  Gb : ℕ → ℕ → ℚ
  Cw : Filt
  Cb : ℕ → ℚ

/-- The analysis (`H`) chain of `construct_ufcnn`: level 0 consumes the
height-expanded input with `n_inputs` channels at dilation 1; level `l+1`
consumes level `l`'s output with `n_filters` channels at dilation `2^(l+1)`
(the loop doubles `dilation` after every level).  Each layer is
`relu(conv(...))`. -/
def hOut (net : UFCNN) (W : UWeights) (x_in : Inp) : ℕ → Act
  | 0 =>
      relu4 (conv (expandDims1 x_in) (W.Hw 0) (W.Hb 0)
        1 net.filter_length net.n_inputs net.filter_length 1)
  | l + 1 =>
      relu4 (conv (hOut net W x_in l) (W.Hw (l + 1)) (W.Hb (l + 1))
        1 net.filter_length net.n_filters net.filter_length (2 ^ (l + 1)))

/-- The synthesis (`G`) chain of `construct_ufcnn`, deepest level first:
iteration `j` processes level `n_levels - 1 - j`.  Iteration 0 consumes the
deepest analysis output (`n_filters` channels); iteration `j+1` consumes
the channel concatenation of the previous synthesis output with the
matching analysis output (`2 * n_filters` channels).  The dilation entering
the loop is `2^n_levels` (the analysis loop doubled it once per level) and
is halved after each iteration, so iteration `j` uses `2^(n_levels - j)`. -/
def gOut (net : UFCNN) (W : UWeights) (x_in : Inp) : ℕ → Act
  | 0 =>
      relu4 (conv (hOut net W x_in (net.n_levels - 1))
        (W.Gw (net.n_levels - 1)) (W.Gb (net.n_levels - 1))
        1 net.filter_length net.n_filters net.filter_length
        (2 ^ net.n_levels))
  | j + 1 =>
      relu4 (conv
        (concatCh (gOut net W x_in j)
          (hOut net W x_in (net.n_levels - 2 - j)) net.n_filters)
        (W.Gw (net.n_levels - 2 - j)) (W.Gb (net.n_levels - 2 - j))
        1 net.filter_length (2 * net.n_filters) net.filter_length
        (2 ^ (net.n_levels - 1 - j)))

/-- The final `C` convolution: dilation 1, mapping `n_filters` channels to
`n_outputs` channels, applied to the last synthesis output. -/
def cOut (net : UFCNN) (W : UWeights) (x_in : Inp) : Act :=
  conv (gOut net W x_in (net.n_levels - 1)) W.Cw W.Cb
    1 net.filter_length net.n_filters net.filter_length 1

/-- The tensor `y_hat`: the final convolution with the singleton height axis removed
by `tf.squeeze(y_hat, [1])`. -/
def yHat (net : UFCNN) (W : UWeights) (x_in : Inp) : Inp :=
  fun b t o => cOut net W x_in b 0 t o

/-! Shape-level semantics.

Shapes of 4-D tensors, and the shape transformer of every operation used
by `construct_ufcnn`, mirroring TensorFlow's static-shape rules for
`padding='VALID'`, stride-one convolutions. -/

/-- Shape of a 4-D tensor (batch, height, time, channels). -/
structure Shape4 where
  b : ℕ
  h : ℕ
  t : ℕ
  c : ℕ
  deriving DecidableEq, Repr

/-- Shape action of `padTime`: the time axis grows by `p`. -/
def padTimeShape (s : Shape4) (p : ℕ) : Shape4 :=
  { s with t := s.t + p }

/-- Shape action of `conv2d` (VALID, stride one): each spatial axis shrinks
by the filter extent minus one; channels become `cout`. -/
def conv2dShape (s : Shape4) (fh fw cout : ℕ) : Shape4 :=
  ⟨s.b, s.h - (fh - 1), s.t - (fw - 1), cout⟩

/-- Shape action of `atrousConv2d`: spatial axes shrink by the dilated
filter extent minus one. -/
def atrousConv2dShape (s : Shape4) (fh fw cout d : ℕ) : Shape4 :=
  ⟨s.b, s.h - d * (fh - 1), s.t - d * (fw - 1), cout⟩

/-- Shape action of `conv`: pad, then the selected convolution. -/
def convShape (s : Shape4) (fh fw cout : ℕ) (filter_length dilation : ℕ) :
    Shape4 :=
  let sp := padTimeShape s (dilation * (filter_length - 1))
  if dilation = 1 then conv2dShape sp fh fw cout
  else atrousConv2dShape sp fh fw cout dilation

/-- Shape action of `concatCh` (channel-axis concatenation). -/
def concatChShape (s₁ s₂ : Shape4) : Shape4 :=
  ⟨s₁.b, s₁.h, s₁.t, s₁.c + s₂.c⟩

/-- Shape action of `tf.expand_dims(x_in, 1)` on a (batch, time, channel)
input. -/
def expandDims1Shape (B T C : ℕ) : Shape4 := ⟨B, 1, T, C⟩

/-- Shape action of `tf.squeeze(x, [1])`: defined only when the height
axis is a singleton, in which case it is removed. -/
def squeeze1Shape (s : Shape4) : Option (ℕ × ℕ × ℕ) :=
  if s.h = 1 then some (s.b, s.t, s.c) else none

/-- Shapes along the analysis chain, for an input of batch `B` and `T`
time samples (ReLU leaves shapes unchanged). -/
def hOutShape (net : UFCNN) (B T : ℕ) : ℕ → Shape4
  | 0 =>
      convShape (expandDims1Shape B T net.n_inputs)
        1 net.filter_length net.n_filters net.filter_length 1
  | l + 1 =>
      convShape (hOutShape net B T l)
        1 net.filter_length net.n_filters net.filter_length (2 ^ (l + 1))

/-- Shapes along the synthesis chain, deepest level first. -/
def gOutShape (net : UFCNN) (B T : ℕ) : ℕ → Shape4
  | 0 =>
      convShape (hOutShape net B T (net.n_levels - 1))
        1 net.filter_length net.n_filters net.filter_length
        (2 ^ net.n_levels)
  | j + 1 =>
      convShape
        (concatChShape (gOutShape net B T j)
          (hOutShape net B T (net.n_levels - 2 - j)))
        1 net.filter_length net.n_filters net.filter_length
        (2 ^ (net.n_levels - 1 - j))

/-- Shape of the final `C` convolution's output. -/
def cOutShape (net : UFCNN) (B T : ℕ) : Shape4 :=
  convShape (gOutShape net B T (net.n_levels - 1))
    1 net.filter_length net.n_outputs net.filter_length 1

/-- Shape of `y_hat` after `tf.squeeze(_, [1])` (`none` when the squeeze
would fail because the height axis is not 1). -/
def yHatShape (net : UFCNN) (B T : ℕ) : Option (ℕ × ℕ × ℕ) :=
  squeeze1Shape (cOutShape net B T)

/-! Dilation bookkeeping.

The dilation variable of `construct_ufcnn` starts at 1, is doubled after
every analysis level, and is halved (floor division) after every synthesis
iteration.  We record the sequence of values it takes at each convolution
call. -/

/-- Dilations used by successive analysis levels when the variable
currently holds `d` (the loop doubles it after each use). -/
def hDilsAux : ℕ → ℕ → List ℕ
  | _, 0 => []
  | d, n + 1 => d :: hDilsAux (2 * d) n

/-- Value of the dilation variable after `n` analysis levels starting
from `d`. -/
def hDilAfterAux : ℕ → ℕ → ℕ
  | d, 0 => d
  | d, n + 1 => hDilAfterAux (2 * d) n

/-- Dilations used by the `n` analysis (`H`) layers, level 0 first. -/
def hDils (n : ℕ) : List ℕ := hDilsAux 1 n

/-- Value of the dilation variable when the synthesis loop starts. -/
def dilAfterH (n : ℕ) : ℕ := hDilAfterAux 1 n

/-- Dilations used by successive synthesis iterations when the variable
currently holds `d` (the loop halves it after each use). -/
def gDilsAux : ℕ → ℕ → List ℕ
  | _, 0 => []
  | d, n + 1 => d :: gDilsAux (d / 2) n

/-- Dilations used by the `n` synthesis (`G`) layers in the order they are
built: deepest level first. -/
def gDilsRev (n : ℕ) : List ℕ := gDilsAux (dilAfterH n) n

/-- Synthesis dilations re-indexed by level (level 0 first). -/
def gDils (n : ℕ) : List ℕ := (gDilsRev n).reverse

/-! Weight and bias shapes.

`construct_ufcnn` draws each weight and bias with `init_normal` at an
explicit shape; we record those shapes in the order the lists are built. -/

/-- Shapes of the `H_weights` list: level 0 consumes `n_inputs` channels,
deeper levels consume `n_filters`. -/
def H_weight_shapes (net : UFCNN) : List (List ℕ) :=
  (List.range net.n_levels).map fun level =>
    if level = 0 then
      [1, net.filter_length, net.n_inputs, net.n_filters]
    else
      [1, net.filter_length, net.n_filters, net.n_filters]

/-- Shapes of the `H_biases` list. -/
def H_bias_shapes (net : UFCNN) : List (List ℕ) :=
  (List.range net.n_levels).map fun _ => [net.n_filters]

/-- Shapes of the `G_weights` list: the deepest level consumes `n_filters`
channels, every other level consumes the `2 * n_filters` channels of a
skip-connection concatenation. -/
def G_weight_shapes (net : UFCNN) : List (List ℕ) :=
  (List.range net.n_levels).map fun level =>
    if level = net.n_levels - 1 then
      [1, net.filter_length, net.n_filters, net.n_filters]
    else
      [1, net.filter_length, 2 * net.n_filters, net.n_filters]

/-- Shapes of the `G_biases` list. -/
def G_bias_shapes (net : UFCNN) : List (List ℕ) :=
  (List.range net.n_levels).map fun _ => [net.n_filters]

/-- Shape of `C_weights`. -/
def C_weight_shape (net : UFCNN) : List ℕ :=
  [1, net.filter_length, net.n_filters, net.n_outputs]

/-- Shape of `C_biases`. -/
def C_bias_shape (net : UFCNN) : List ℕ := [net.n_outputs]

/-- Shapes of the returned `weights` list:
`H_weights + G_weights + [C_weights]`. -/
def weights_shapes (net : UFCNN) : List (List ℕ) :=
  H_weight_shapes net ++ G_weight_shapes net ++ [C_weight_shape net]

/-- Shapes of the returned `biases` list:
`H_biases + G_biases + [C_biases]`. -/
def biases_shapes (net : UFCNN) : List (List ℕ) :=
  H_bias_shapes net ++ G_bias_shapes net ++ [C_bias_shape net]

/-! Numeric utilities (`mse_loss`, `softmax`).

These act on 3-D real tensors (batch, samples, classes/channels). -/

/-- A 3-D tensor of shape `(B, N, C)` with real entries. -/
structure Tensor3 where
  B : ℕ
  N : ℕ
  C : ℕ
  data : ℕ → ℕ → ℕ → ℝ

/-- Embedding of `tf.reshape(y_hat, (-1, shape[2]))`: row-major flattening of the two
leading axes, giving row `b * N + t` for position `(b, t)`. -/
def flatten2 (y : Tensor3) : ℕ → ℕ → ℝ :=
  fun r c => y.data (r / y.N) (r % y.N) c

/-- Embedding of `tf.reshape(sf, shape)` back to three axes of time
extent `N`. -/
def unflatten3 (N : ℕ) (z : ℕ → ℕ → ℝ) : ℕ → ℕ → ℕ → ℝ :=
  fun b t c => z (b * N + t) c

/-- Embedding of `tf.nn.softmax` on a 2-D tensor with `C` columns,
rowwise. -/
noncomputable def rowSoftmax (z : ℕ → ℕ → ℝ) (C : ℕ) : ℕ → ℕ → ℝ :=
  fun r c => Real.exp (z r c) / ∑ j ∈ range C, Real.exp (z r j)

/-- Embedding of `softmax` from the source: flatten the leading axes, apply the rowwise
softmax over the last axis, and reshape back to the original shape. -/
noncomputable def softmax (y : Tensor3) : Tensor3 :=
  { B := y.B, N := y.N, C := y.C,
    data := unflatten3 y.N (rowSoftmax (flatten2 y) y.C) }

/-- Elementwise difference of two 3-D tensors (shape taken from the
first, as the runtime requires both to match). -/
def sub3 (x y : Tensor3) : Tensor3 :=
  ⟨x.B, x.N, x.C, fun b t c => x.data b t c - y.data b t c⟩

/-- Embedding of `tf.square`, elementwise. -/
def square3 (x : Tensor3) : Tensor3 :=
  ⟨x.B, x.N, x.C, fun b t c => (x.data b t c) ^ 2⟩

/-- Embedding of `tf.reduce_mean`: sum of all entries divided by the
element count. -/
noncomputable def reduceMean (x : Tensor3) : ℝ :=
  (∑ b ∈ range x.B, ∑ t ∈ range x.N, ∑ c ∈ range x.C, x.data b t c) /
    (x.B * x.N * x.C)

/-- Embedding of `mse_loss` from the source:
`tf.reduce_mean(tf.square(y_hat - y))`. -/
noncomputable def mse_loss (y_hat y : Tensor3) : ℝ :=
  reduceMean (square3 (sub3 y_hat y))

/-! Causality infrastructure: agreement of two signals up to a time bound
is preserved by every operation of the network. -/

/-- Two activation tensors agree at every time position up to `T`. -/
def AgreeUpTo (T : ℕ) (x y : Act) : Prop :=
  ∀ b h u c, u ≤ T → x b h u c = y b h u c

/-- Two 3-D inputs agree at every time position up to `T`. -/
def AgreeUpTo3 (T : ℕ) (x y : Inp) : Prop :=
  ∀ b u c, u ≤ T → x b u c = y b u c

/-- Pointwise form of `conv`: the padded tensor convolved by the branch the
dilation selects, plus the bias. -/
lemma conv_apply (x : Act) (w : Filt) (bias : ℕ → ℚ) (fh fw cin fl d b h t o : ℕ) :
    conv x w bias fh fw cin fl d b h t o =
      (if d = 1 then conv2d (padTime x (d * (fl - 1))) w fh fw cin b h t o
       else atrousConv2d (padTime x (d * (fl - 1))) w fh fw cin d b h t o) +
        bias o := by
  unfold conv addBias
  split <;> rfl

/-- Left padding shifts the agreement bound by the padding amount. -/
lemma padTime_agree {T : ℕ} {x y : Act} (p : ℕ) (hxy : AgreeUpTo T x y) :
    AgreeUpTo (T + p) (padTime x p) (padTime y p) := by
  intro b h u c hu
  unfold padTime
  split
  · rfl
  · exact hxy b h (u - p) c (by omega)

/-- Core causality of `conv`: when the filter width is at most the
`filter_length` used for padding, the output at any time up to `T` is
unchanged if the input is unchanged up to `T`. -/
lemma conv_agree {T : ℕ} {x y : Act} (w : Filt) (bias : ℕ → ℚ)
    (fh fw cin fl d : ℕ) (hfw : fw ≤ fl) (hxy : AgreeUpTo T x y) :
    AgreeUpTo T (conv x w bias fh fw cin fl d)
      (conv y w bias fh fw cin fl d) := by
  intro b h t o ht
  have hp := padTime_agree (x := x) (y := y) (d * (fl - 1)) hxy
  rw [conv_apply, conv_apply]
  by_cases hd : d = 1
  · subst hd
    simp only [if_pos rfl]
    congr 1
    unfold conv2d
    refine Finset.sum_congr rfl fun r _ => ?_
    refine Finset.sum_congr rfl fun k hk => ?_
    refine Finset.sum_congr rfl fun i _ => ?_
    have hk' : k < fw := Finset.mem_range.mp hk
    rw [hp b (h + r) (t + k) i (by omega)]
  · simp only [if_neg hd]
    congr 1
    unfold atrousConv2d
    refine Finset.sum_congr rfl fun r _ => ?_
    refine Finset.sum_congr rfl fun k hk => ?_
    refine Finset.sum_congr rfl fun i _ => ?_
    have hk' : k < fw := Finset.mem_range.mp hk
    have hdk : d * k ≤ d * (fl - 1) := Nat.mul_le_mul_left d (by omega)
    rw [hp b (h + d * r) (t + d * k) i (by omega)]

/-- ReLU preserves agreement. -/
lemma relu4_agree {T : ℕ} {x y : Act} (hxy : AgreeUpTo T x y) :
    AgreeUpTo T (relu4 x) (relu4 y) := by
  intro b h u c hu
  unfold relu4
  rw [hxy b h u c hu]

/-- Channel concatenation preserves agreement. -/
lemma concatCh_agree {T : ℕ} {x y x' y' : Act} (cx : ℕ)
    (hx : AgreeUpTo T x x') (hy : AgreeUpTo T y y') :
    AgreeUpTo T (concatCh x y cx) (concatCh x' y' cx) := by
  intro b h u c hu
  unfold concatCh
  split
  · exact hx b h u c hu
  · exact hy b h u (c - cx) hu

/-- Expanding the height axis preserves agreement. -/
lemma expandDims1_agree {T : ℕ} {x y : Inp} (hxy : AgreeUpTo3 T x y) :
    AgreeUpTo T (expandDims1 x) (expandDims1 y) := by
  intro b h u c hu
  exact hxy b u c hu

/-- Every analysis layer's output up to time `T` is determined by the
input up to time `T`. -/
lemma hOut_agree {T : ℕ} (net : UFCNN) (W : UWeights) {x y : Inp}
    (hxy : AgreeUpTo3 T x y) :
    ∀ l, AgreeUpTo T (hOut net W x l) (hOut net W y l) := by
  intro l
  induction l with
  | zero =>
      simp only [hOut]
      exact relu4_agree
        (conv_agree _ _ _ _ _ _ _ le_rfl (expandDims1_agree hxy))
  | succ l ih =>
      simp only [hOut]
      exact relu4_agree (conv_agree _ _ _ _ _ _ _ le_rfl ih)

/-- Every synthesis layer's output up to time `T` is determined by the
input up to time `T`. -/
lemma gOut_agree {T : ℕ} (net : UFCNN) (W : UWeights) {x y : Inp}
    (hxy : AgreeUpTo3 T x y) :
    ∀ j, AgreeUpTo T (gOut net W x j) (gOut net W y j) := by
  intro j
  induction j with
  | zero =>
      simp only [gOut]
      exact relu4_agree
        (conv_agree _ _ _ _ _ _ _ le_rfl (hOut_agree net W hxy _))
  | succ j ih =>
      simp only [gOut]
      exact relu4_agree (conv_agree _ _ _ _ _ _ _ le_rfl
        (concatCh_agree _ ih (hOut_agree net W hxy _)))

/-- The final convolution's output up to time `T` is determined by the
input up to time `T`. -/
lemma cOut_agree {T : ℕ} (net : UFCNN) (W : UWeights) {x y : Inp}
    (hxy : AgreeUpTo3 T x y) :
    AgreeUpTo T (cOut net W x) (cOut net W y) := by
  unfold cOut
  exact conv_agree _ _ _ _ _ _ _ le_rfl (gOut_agree net W hxy _)

/-! Shape propagation lemmas. -/

/-- A `conv` with a height-1, width-`fl` filter and padding length `fl`
maps a (B, 1, T, c) shape to (B, 1, T, cout) for every dilation: the left
padding exactly compensates the VALID shrink of the time axis. -/
lemma convShape_unit (B T c cout fl d : ℕ) :
    convShape ⟨B, 1, T, c⟩ 1 fl cout fl d = ⟨B, 1, T, cout⟩ := by
  unfold convShape padTimeShape conv2dShape atrousConv2dShape
  split
  · next hd => subst hd; simp
  · simp

/-- Every analysis output has shape (B, 1, T, n_filters). -/
lemma hOutShape_const (net : UFCNN) (B T : ℕ) :
    ∀ l, hOutShape net B T l = ⟨B, 1, T, net.n_filters⟩ := by
  intro l
  induction l with
  | zero =>
      simp only [hOutShape, expandDims1Shape]
      exact convShape_unit _ _ _ _ _ _
  | succ l ih =>
      simp only [hOutShape, ih]
      exact convShape_unit _ _ _ _ _ _

/-- Every synthesis output has shape (B, 1, T, n_filters). -/
lemma gOutShape_const (net : UFCNN) (B T : ℕ) :
    ∀ j, gOutShape net B T j = ⟨B, 1, T, net.n_filters⟩ := by
  intro j
  induction j with
  | zero =>
      simp only [gOutShape, hOutShape_const]
      exact convShape_unit _ _ _ _ _ _
  | succ j ih =>
      simp only [gOutShape, ih, hOutShape_const, concatChShape]
      exact convShape_unit _ _ _ _ _ _

/-- The final convolution's output has shape (B, 1, T, n_outputs). -/
lemma cOutShape_eq (net : UFCNN) (B T : ℕ) :
    cOutShape net B T = ⟨B, 1, T, net.n_outputs⟩ := by
  unfold cOutShape
  rw [gOutShape_const]
  exact convShape_unit _ _ _ _ _ _

/-! Concrete instances used to instantiate the theorems below. -/

/-- A one-level network (1 input, 1 output, 1 filter, filter length 2)
used for concrete instantiation. -/
def netEx : UFCNN := ⟨1, 1, 1, 1, 2⟩

/-- A two-level network (1 input, 1 output, 3 filters, filter length 5)
used for concrete instantiation. -/
def netEx2 : UFCNN := ⟨1, 1, 2, 3, 5⟩

/-- All-ones weights with zero biases, for concrete instantiation. -/
def wEx : UWeights :=
  ⟨fun _ _ _ _ _ => 1, fun _ _ => 0, fun _ _ _ _ _ => 1, fun _ _ => 0,
   fun _ _ _ _ => 1, fun _ => 0⟩

/-- A concrete input signal: 1 at times up to 1, then 2. -/
def xEx : Inp := fun _ u _ => if u ≤ 1 then 1 else 2

/-- A concrete input signal agreeing with `xEx` up to time 1 and
differing afterwards. -/
def xEx2 : Inp := fun _ u _ => if u ≤ 1 then 1 else 3

/-- C1: for every parameterization of `construct_ufcnn` and every choice
of weights, if two input sequences agree at all time positions ≤ T but
differ at some position after T, then the output `y_hat` agrees at every
time position < T: changing an input value at a time never changes output
values at earlier times. -/
theorem C1_causal_network (net : UFCNN) (W : UWeights)
    (hn : 1 ≤ net.n_levels) (x y : Inp) (T : ℕ)
    (hagree : ∀ b u c, u ≤ T → x b u c = y b u c)
    (hdiff : ∃ b u c, T < u ∧ x b u c ≠ y b u c)
    (b s o : ℕ) (hs : s < T) :
    yHat net W x b s o = yHat net W y b s o :=
  cOut_agree net W hagree b 0 s o (le_of_lt hs)

/-- Instantiation of `C1_causal_network` on a concrete one-level network
and two signals agreeing up to time 1 and differing at time 2. -/
theorem C1_causal_network_witness :
    yHat netEx wEx xEx 0 0 0 = yHat netEx wEx xEx2 0 0 0 :=
  C1_causal_network netEx wEx (by decide) xEx xEx2 1
    (by intro b u c hu; simp [xEx, xEx2, hu])
    ⟨0, 2, 0, by norm_num [xEx, xEx2]⟩
    0 0 0 (by decide)

/-- C6: for every input batch/time extent, the output tensor `y_hat` has
shape (batch_size, n_samples, n_outputs): the singleton height axis
introduced internally is removed after the final dilation-1 convolution,
the leading two axes match the input, and the last axis is `n_outputs`. -/
theorem C6_output_shape (net : UFCNN) (B T : ℕ) (hn : 1 ≤ net.n_levels) :
    yHatShape net B T = some (B, T, net.n_outputs) := by
  unfold yHatShape squeeze1Shape
  rw [cOutShape_eq]
  simp

/-- Instantiation of `C6_output_shape` on a concrete one-level network
with batch 3 and 5 time samples. -/
theorem C6_output_shape_witness : yHatShape netEx 3 5 = some (3, 5, 1) :=
  C6_output_shape netEx 3 5 (by decide)

/-- C10: the height axis of every intermediate activation — each analysis
output, each synthesis output, and the final convolution's output — is
exactly 1, so removing axis 1 with `tf.squeeze` at the end is always
well-defined. -/
theorem C10_height_singleton (net : UFCNN) (B T : ℕ)
    (hn : 1 ≤ net.n_levels) (l j : ℕ)
    (hl : l < net.n_levels) (hj : j < net.n_levels) :
    (hOutShape net B T l).h = 1 ∧ (gOutShape net B T j).h = 1 ∧
    (cOutShape net B T).h = 1 ∧
    (squeeze1Shape (cOutShape net B T)).isSome = true := by
  refine ⟨?_, ?_, ?_, ?_⟩ <;>
    simp [hOutShape_const, gOutShape_const, cOutShape_eq, squeeze1Shape]

/-- Instantiation of `C10_height_singleton` on a concrete one-level
network. -/
theorem C10_height_singleton_witness :
    (hOutShape netEx 3 5 0).h = 1 ∧ (gOutShape netEx 3 5 0).h = 1 ∧
    (cOutShape netEx 3 5).h = 1 ∧
    (squeeze1Shape (cOutShape netEx 3 5)).isSome = true :=
  C10_height_singleton netEx 3 5 (by decide) 0 0 (by decide) (by decide)

/-- A constant activation tensor used for concrete instantiation. -/
def actEx : Act := fun _ _ _ _ => 1

/-- A constant filter used for concrete instantiation. -/
def wF : Filt := fun _ _ _ _ => 1

/-- A constant bias used for concrete instantiation. -/
def biasEx : ℕ → ℚ := fun _ => 0

/-- C5: `conv` left-pads the time axis by exactly
`dilation * (filter_length - 1)` zeros and adds no right padding, applies
a standard convolution when the dilation is 1 and an atrous convolution
otherwise, and finally adds the bias broadcast over the other axes.  Both
branches compute the same dilated correlation of the padded input, and the
left padding exactly compensates the VALID shrink, so the time extent is
preserved. -/
theorem C5_conv_causal_padding (x : Act) (w : Filt) (bias : ℕ → ℚ)
    (fh cin fl d : ℕ) (hfl : 1 ≤ fl) (hd : 1 ≤ d)
    (b h t o : ℕ) (s : Shape4) (cout : ℕ) :
    conv x w bias fh fl cin fl d =
      addBias
        (if d = 1 then conv2d (padTime x (d * (fl - 1))) w fh fl cin
         else atrousConv2d (padTime x (d * (fl - 1))) w fh fl cin d)
        bias
    ∧ conv x w bias fh fl cin fl d b h t o =
        (∑ r ∈ range fh, ∑ k ∈ range fl, ∑ i ∈ range cin,
          padTime x (d * (fl - 1)) b (h + d * r) (t + d * k) i * w r k i o)
          + bias o
    ∧ (convShape s fh fl cout fl d).t = s.t := by
  refine ⟨?_, ?_, ?_⟩
  · by_cases hd1 : d = 1 <;> simp [conv, hd1]
  · by_cases hd1 : d = 1
    · subst hd1
      rw [conv_apply]
      simp only [if_pos rfl]
      unfold conv2d
      simp [one_mul]
    · rw [conv_apply]
      simp only [if_neg hd1]
      rfl
  · unfold convShape padTimeShape conv2dShape atrousConv2dShape
    split
    · next h1 => subst h1; simp
    · simp

/-- Instantiation of `C5_conv_causal_padding` on a constant tensor with
filter length 2 and dilation 2. -/
theorem C5_conv_causal_padding_witness :
    conv actEx wF biasEx 1 2 1 2 2 =
      addBias
        (if 2 = 1 then conv2d (padTime actEx (2 * (2 - 1))) wF 1 2 1
         else atrousConv2d (padTime actEx (2 * (2 - 1))) wF 1 2 1 2)
        biasEx
    ∧ conv actEx wF biasEx 1 2 1 2 2 0 0 0 0 =
        (∑ r ∈ range 1, ∑ k ∈ range 2, ∑ i ∈ range 1,
          padTime actEx (2 * (2 - 1)) 0 (0 + 2 * r) (0 + 2 * k) i *
            wF r k i 0) + biasEx 0
    ∧ (convShape ⟨1, 1, 4, 1⟩ 1 2 1 2 2).t = (⟨1, 1, 4, 1⟩ : Shape4).t :=
  C5_conv_causal_padding actEx wF biasEx 1 1 2 2 (by decide) (by decide)
    0 0 0 0 ⟨1, 1, 4, 1⟩ 1

/-- C2: the dilation schedule the code actually produces at
`n_levels = 2`.  The analysis layers use dilations `[1, 2]` (doubling per
level), but the dilation variable has already been doubled once more when
the synthesis loop starts (`dilAfterH 2 = 4`), so the synthesis layers,
walked deepest-first, use `[4, 2]`: the synthesis layer at each level uses
twice the dilation of the analysis layer at the same level, and in
level order the two schedules differ. -/
theorem C2_dilation_schedule :
    hDils 2 = [1, 2] ∧ dilAfterH 2 = 4 ∧ gDilsRev 2 = [4, 2] ∧
    gDils 2 = [2, 4] ∧ gDils 2 ≠ hDils 2 := by decide

/-- C3: the synthesis weight at level `l` consumes `2 * n_filters` input
channels, except at the deepest level `n_levels - 1`, where it consumes
`n_filters` (no previous synthesis output to concatenate). -/
theorem C3_g_input_channels (net : UFCNN) (hn : 1 ≤ net.n_levels)
    (l : ℕ) (hl : l < net.n_levels) :
    (G_weight_shapes net)[l]? =
      some [1, net.filter_length,
        if l = net.n_levels - 1 then net.n_filters else 2 * net.n_filters,
        net.n_filters] := by
  have h1 : (List.range net.n_levels)[l]? = some l := by
    simp [List.getElem?_range, hl]
  unfold G_weight_shapes
  rw [List.getElem?_map, h1]
  by_cases hE : l = net.n_levels - 1 <;> simp [hE]

/-- Instantiation of `C3_g_input_channels` at level 0 of a two-level
network with 3 filters. -/
theorem C3_g_input_channels_witness :
    (G_weight_shapes netEx2)[0]? =
      some [1, netEx2.filter_length,
        if 0 = netEx2.n_levels - 1 then netEx2.n_filters
        else 2 * netEx2.n_filters,
        netEx2.n_filters] :=
  C3_g_input_channels netEx2 (by decide) 0 (by decide)

/-- C4: the returned weight and bias lists each have length
`2 * n_levels + 1` and are ordered as the `n_levels` H-layer entries, then
the `n_levels` G-layer entries, then the final C-layer entry. -/
theorem C4_return_list_layout (net : UFCNN) (l : ℕ)
    (hl : l < net.n_levels) :
    (weights_shapes net).length = 2 * net.n_levels + 1 ∧
    (biases_shapes net).length = 2 * net.n_levels + 1 ∧
    (weights_shapes net)[l]? = (H_weight_shapes net)[l]? ∧
    (weights_shapes net)[net.n_levels + l]? = (G_weight_shapes net)[l]? ∧
    (weights_shapes net)[2 * net.n_levels]? = some (C_weight_shape net) ∧
    (biases_shapes net)[l]? = (H_bias_shapes net)[l]? ∧
    (biases_shapes net)[net.n_levels + l]? = (G_bias_shapes net)[l]? ∧
    (biases_shapes net)[2 * net.n_levels]? = some (C_bias_shape net) := by
  have hHw : (H_weight_shapes net).length = net.n_levels := by
    simp [H_weight_shapes]
  have hGw : (G_weight_shapes net).length = net.n_levels := by
    simp [G_weight_shapes]
  have hHb : (H_bias_shapes net).length = net.n_levels := by
    simp [H_bias_shapes]
  have hGb : (G_bias_shapes net).length = net.n_levels := by
    simp [G_bias_shapes]
  have c2 : net.n_levels + l < net.n_levels + net.n_levels := by omega
  have c3 : ¬ net.n_levels + l < net.n_levels := by omega
  have d1 : ¬ 2 * net.n_levels < net.n_levels := by omega
  have d3 : 2 * net.n_levels - net.n_levels - net.n_levels = 0 := by omega
  refine ⟨?_, ?_, ?_, ?_, ?_, ?_, ?_, ?_⟩
  · simp [weights_shapes, hHw, hGw]; omega
  · simp [biases_shapes, hHb, hGb]; omega
  · simp [weights_shapes, List.getElem?_append, List.length_append,
      hHw, hGw, hl, c2]
  · simp [weights_shapes, List.getElem?_append, List.length_append,
      hHw, hGw, hl, c2, c3, Nat.add_sub_cancel_left]
  · simp [weights_shapes, List.getElem?_append, List.length_append,
      hHw, hGw, d1, d3]
    omega
  · simp [biases_shapes, List.getElem?_append, List.length_append,
      hHb, hGb, hl, c2]
  · simp [biases_shapes, List.getElem?_append, List.length_append,
      hHb, hGb, hl, c2, c3, Nat.add_sub_cancel_left]
  · simp [biases_shapes, List.getElem?_append, List.length_append,
      hHb, hGb, d1, d3]
    omega

/-- Instantiation of `C4_return_list_layout` at level 0 of a two-level
network. -/
theorem C4_return_list_layout_witness :
    (weights_shapes netEx2).length = 2 * netEx2.n_levels + 1 ∧
    (biases_shapes netEx2).length = 2 * netEx2.n_levels + 1 ∧
    (weights_shapes netEx2)[0]? = (H_weight_shapes netEx2)[0]? ∧
    (weights_shapes netEx2)[netEx2.n_levels + 0]? =
      (G_weight_shapes netEx2)[0]? ∧
    (weights_shapes netEx2)[2 * netEx2.n_levels]? =
      some (C_weight_shape netEx2) ∧
    (biases_shapes netEx2)[0]? = (H_bias_shapes netEx2)[0]? ∧
    (biases_shapes netEx2)[netEx2.n_levels + 0]? =
      (G_bias_shapes netEx2)[0]? ∧
    (biases_shapes netEx2)[2 * netEx2.n_levels]? =
      some (C_bias_shape netEx2) :=
  C4_return_list_layout netEx2 0 (by decide)

/-- A concrete one-element 3-D tensor used for instantiation. -/
def smEx : Tensor3 := ⟨1, 1, 1, fun _ _ _ => 0⟩

/-- C7: for every 3-D tensor with a nonempty class axis, the softmax
output is entrywise non-negative and sums to 1 across the class axis at
every (batch, time) position. -/
theorem C7_softmax_distribution (y : Tensor3) (hC : 0 < y.C) (b t c : ℕ) :
    0 ≤ (softmax y).data b t c ∧
    ∑ j ∈ range y.C, (softmax y).data b t j = 1 := by
  have hS : 0 < ∑ j ∈ range y.C, Real.exp (flatten2 y (b * y.N + t) j) :=
    Finset.sum_pos (fun j _ => Real.exp_pos _)
      (Finset.nonempty_range_iff.mpr (Nat.pos_iff_ne_zero.mp hC))
  constructor
  · simp only [softmax, unflatten3, rowSoftmax]
    exact div_nonneg (Real.exp_pos _).le hS.le
  · simp only [softmax, unflatten3, rowSoftmax]
    rw [← Finset.sum_div, div_self hS.ne']

/-- Instantiation of `C7_softmax_distribution` on a one-class zero
tensor. -/
theorem C7_softmax_distribution_witness :
    0 ≤ (softmax smEx).data 0 0 0 ∧
    ∑ j ∈ range smEx.C, (softmax smEx).data 0 0 j = 1 :=
  C7_softmax_distribution smEx (by decide) 0 0 0

/-- C8: `softmax` flattens the leading axes, applies the rowwise softmax,
and restores the original shape: the output's shape equals the input's
shape, and the flatten/unflatten index maps round-trip at every in-shape
position. -/
theorem C8_softmax_shape_roundtrip (y : Tensor3) (b t c : ℕ)
    (ht : t < y.N) :
    (softmax y).B = y.B ∧ (softmax y).N = y.N ∧ (softmax y).C = y.C ∧
    unflatten3 y.N (flatten2 y) b t c = y.data b t c := by
  refine ⟨rfl, rfl, rfl, ?_⟩
  have hN : 0 < y.N := lt_of_le_of_lt (Nat.zero_le t) ht
  unfold unflatten3 flatten2
  have hdiv : (b * y.N + t) / y.N = b := by
    rw [mul_comm, Nat.mul_add_div hN, Nat.div_eq_of_lt ht, add_zero]
  have hmod : (b * y.N + t) % y.N = t := by
    rw [mul_comm b y.N, Nat.mul_add_mod, Nat.mod_eq_of_lt ht]
  rw [hdiv, hmod]

/-- Instantiation of `C8_softmax_shape_roundtrip` on a one-element
tensor. -/
theorem C8_softmax_shape_roundtrip_witness :
    (softmax smEx).B = smEx.B ∧ (softmax smEx).N = smEx.N ∧
    (softmax smEx).C = smEx.C ∧
    unflatten3 smEx.N (flatten2 smEx) 0 0 0 = smEx.data 0 0 0 :=
  C8_softmax_shape_roundtrip smEx 0 0 0 (by decide)

/-- C9: `mse_loss` is the scalar mean of the squared elementwise
differences of its arguments, and vanishes when both arguments
coincide. -/
theorem C9_mse_loss (y_hat y : Tensor3) :
    mse_loss y_hat y =
      (∑ b ∈ range y_hat.B, ∑ t ∈ range y_hat.N, ∑ c ∈ range y_hat.C,
        (y_hat.data b t c - y.data b t c) ^ 2) /
        (y_hat.B * y_hat.N * y_hat.C)
    ∧ mse_loss y y = 0 := by
  constructor
  · rfl
  · simp [mse_loss, reduceMean, square3, sub3]
